import Mathlib

/-!
Verification development for the training driver `src/train.py` of the
HighResSegMonAI repository.  The script indexes a dataset of subject folders,
splits the resulting record list into train/validation/test slices, builds
two transform pipelines, and runs a standard epoch loop with periodic
validation and best-model checkpointing.  Each Python fragment relevant to
the claims is embedded below as an executable Lean definition; the theorems
settle the claims against these definitions.
-/

namespace HighResSeg

/-! ## Dataset indexer (train.py lines 59-73)

The script scans `data/g*` via `sorted(glob(...))`, skips any subject whose
path contains one of six hardcoded bad-subject substrings, and appends two
records (left and right image/label pair) for every remaining subject.
Python string comparison and Lean `String` comparison are both lexicographic
by code point, and `bad_subj in subject_base` is substring containment. -/

/-- The hardcoded exclusion list `bad_subjects` (train.py line 59). -/
def bad_subjects : List String := ["g085", "g087", "g098", "g109", "g147", "g192"]

/-- Does the character list begin with the pattern `pat`? -/
def charsStartWith : List Char → List Char → Bool
  | [], _ => true
  | _ :: _, [] => false
  | p :: ps, c :: cs => p == c && charsStartWith ps cs

/-- Substring containment, the semantics of Python `pat in s`. -/
def containsSub (pat s : List Char) : Bool :=
  s.tails.any (fun t => charsStartWith pat t)

/-- The exclusion test `True in [bad_subj in subject_base for bad_subj in bad_subjects]`
(train.py line 63). -/
def isBadSubject (subject_base : String) : Bool :=
  bad_subjects.any (fun b => containsSub b.toList subject_base.toList)

/-- A sample record `{"img": ..., "seg": ...}` of two file paths. -/
structure SampleRecord where
  img : String
  seg : String
deriving DecidableEq

/-- The semantics of `os.path.join(subject_base, name)` for the paths built
here (no trailing separator on `subject_base`). -/
def pathJoin (base name : String) : String := base ++ "/" ++ name

/-- The left record `{"img": imgL, "seg": segL}` (train.py lines 66, 68, 71). -/
def leftRecord (subject_base : String) : SampleRecord :=
  { img := pathJoin subject_base "volCentered_L.nii.gz"
    seg := pathJoin subject_base "seg_L.nii.gz" }

/-- The right record `{"img": imgR, "seg": segR}` (train.py lines 67, 69, 72). -/
def rightRecord (subject_base : String) : SampleRecord :=
  { img := pathJoin subject_base "volCentered_R.nii.gz"
    seg := pathJoin subject_base "seg_R.nii.gz" }

/-- The glob results are processed in sorted order: `sorted(glob(img_path_pattern))`
(train.py line 62). -/
def sortedSubjects (listing : List String) : List String :=
  listing.insertionSort (fun a b => a ≤ b)

/-- The indexing loop of train.py lines 62-73: fold over the sorted listing,
skipping bad subjects and appending the left/right record pair otherwise. -/
def indexRecords (listing : List String) : List SampleRecord :=
  (sortedSubjects listing).foldl
    (fun data s =>
      if isBadSubject s then data
      else data ++ [leftRecord s, rightRecord s])
    []

/-- The per-subject contribution to the record list: nothing for an excluded
subject, the left/right pair otherwise. -/
def recordsOf (s : String) : List SampleRecord :=
  if isBadSubject s then [] else [leftRecord s, rightRecord s]

/-! ## Splitter (train.py lines 75-84)

`train_test_split = int(size_dataset*0.8)` and
`train_val_split = int(train_test_split*0.9)`.  For every dataset size that
could occur here (far below 2^50), the binary floating-point products
`N*0.8` and `k*0.9` truncate to exactly `floor(8*N/10)` and `floor(9*k/10)`:
the double `0.8` (resp. `0.9`) exceeds 8/10 (resp. 9/10) by less than one
part in 10^16, so the computed product never crosses an integer boundary
downward, and when the exact value is an integer the product is within half
an ulp above it, so `int` still truncates to that integer.  The Nat
divisions below are therefore the exact semantics of lines 76-77. -/

/-- `train_test_split = int(size_dataset*0.8)` (train.py line 76). -/
def train_test_split (N : ℕ) : ℕ := N * 8 / 10

/-- `train_val_split = int(train_test_split*0.9)` (train.py line 77). -/
def train_val_split (N : ℕ) : ℕ := train_test_split N * 9 / 10

/-- `data_train = data[:train_val_split]` (train.py line 82). -/
def dataTrain {α : Type} (l : List α) : List α :=
  l.take (train_val_split l.length)

/-- `data_val = data[train_val_split:train_test_split]` (train.py line 83). -/
def dataVal {α : Type} (l : List α) : List α :=
  (l.take (train_test_split l.length)).drop (train_val_split l.length)

/-- `data_test = data[train_test_split:]` (train.py line 84). -/
def dataTest {α : Type} (l : List α) : List α :=
  l.drop (train_test_split l.length)

/-- Modelled from the spec: the claimed boundary
`train_val_split = floor(0.8 * 0.9 * N) = floor(0.72 * N)`, stated for
comparison with the boundary the code computes. -/
def specTrainValSplit (N : ℕ) : ℕ := N * 72 / 100

/-! ## Transform pipelines (train.py lines 88-116)

Each entry of the two `Compose([...])` lists is embedded as a constructor of
`XStep`; the `Rand*` transforms carry their `prob` parameter (an exact
rational).  A pipeline's observable behaviour on a sample is modelled by an
interpretation supplying one function per deterministic step and one
randomness-consuming function per randomized step; randomness is an
explicit stream of draws, one draw consumed per randomized step. -/

/-- One transform step of a `Compose` pipeline. -/
inductive XStep where
  | loadNifti
  | asChannelFirst
  | addChannel
  | resized
  | scaleIntensity
  | toTensor
  | randScaleIntensity (prob : ℚ)
  | randZoom (prob : ℚ)
  | randGaussianNoise (prob : ℚ)
  | randFlip (prob : ℚ)
  | randAffine (prob : ℚ)
deriving DecidableEq

/-- Is the step one of the `Rand*` (randomized) transforms? -/
def isRandom : XStep → Bool
  | XStep.randScaleIntensity _ => true
  | XStep.randZoom _ => true
  | XStep.randGaussianNoise _ => true
  | XStep.randFlip _ => true
  | XStep.randAffine _ => true
  | _ => false

/-- A constructor tag, used to compare step sequences without comparing
rational parameters. -/
def stepTag : XStep → ℕ
  | XStep.loadNifti => 0
  | XStep.asChannelFirst => 1
  | XStep.addChannel => 2
  | XStep.resized => 3
  | XStep.scaleIntensity => 4
  | XStep.toTensor => 5
  | XStep.randScaleIntensity _ => 6
  | XStep.randZoom _ => 7
  | XStep.randGaussianNoise _ => 8
  | XStep.randFlip _ => 9
  | XStep.randAffine _ => 10

/-- The `train_transforms = Compose([...])` list (train.py lines 88-106),
in source order with the source `prob` values. -/
def train_transforms : List XStep :=
  [XStep.loadNifti,
   XStep.asChannelFirst,
   XStep.addChannel,
   XStep.resized,
   XStep.scaleIntensity,
   XStep.randScaleIntensity (2 / 5),
   XStep.randZoom (4 / 5),
   XStep.randGaussianNoise (9 / 10),
   XStep.randFlip (3 / 10),
   XStep.toTensor,
   XStep.randAffine (9 / 10)]

/-- The `val_transforms = Compose([...])` list (train.py lines 107-116). -/
def val_transforms : List XStep :=
  [XStep.loadNifti,
   XStep.asChannelFirst,
   XStep.addChannel,
   XStep.resized,
   XStep.scaleIntensity,
   XStep.toTensor]

/-- Modelled from the spec: the step order the claim describes for the
training pipeline (randomized noise before randomized zoom, no to-tensor
step), stated for comparison with the order the code builds. -/
def specTrainPipeline : List XStep :=
  [XStep.loadNifti,
   XStep.asChannelFirst,
   XStep.addChannel,
   XStep.resized,
   XStep.scaleIntensity,
   XStep.randScaleIntensity (2 / 5),
   XStep.randGaussianNoise (9 / 10),
   XStep.randZoom (4 / 5),
   XStep.randFlip (3 / 10),
   XStep.randAffine (9 / 10)]

/-- An interpretation of the transform steps on sample states of type `S`:
`det` runs a deterministic step, `rnd` runs a randomized step on one random
draw. -/
structure PipelineSem (S : Type) where
  det : XStep → S → S
  rnd : XStep → S → ℕ → S

/-- Run a pipeline left-to-right on a sample, consuming one draw from the
random stream `r` at each randomized step (each randomized step gates on an
independent per-sample draw). -/
def runPipeline {S : Type} (I : PipelineSem S) : List XStep → S → (ℕ → ℕ) → S
  | [], s, _ => s
  | st :: rest, s, r =>
    if isRandom st then
      runPipeline I rest (I.rnd st s (r 0)) (fun n => r (n + 1))
    else
      runPipeline I rest (I.det st s) r

/-! ## Epoch phases (train.py lines 166-200)

The training phase accumulates `step` and `epoch_loss` over the batches and
then executes `epoch_loss /= step`; the validation phase accumulates
`metric_count` and `metric_sum` over the validation batches and then
executes `metric = metric_sum / metric_count`.  With an empty split the
loop body never runs and the division raises `ZeroDivisionError`; this is
modelled by `Except`. -/

/-- The error a phase can raise: Python `ZeroDivisionError`. -/
inductive RunErr where
  | zeroDivision
deriving DecidableEq

/-- The accumulator of the training loop (train.py lines 166-176):
`step` starts at 0 and is incremented per batch, `epoch_loss` accumulates
the per-batch loss values. -/
def trainAcc (losses : List ℚ) : ℕ × ℚ :=
  losses.foldl (fun p l => (p.1 + 1, p.2 + l)) (0, 0)

/-- One training phase (train.py lines 166-180) over the list of per-batch
loss values: iterate the batches, then `epoch_loss /= step`.  Returns the
number of loop iterations together with the mean loss or the division
error. -/
def trainPhase (losses : List ℚ) : ℕ × Except RunErr ℚ :=
  let acc := trainAcc losses
  (acc.1,
   if acc.1 = 0 then Except.error RunErr.zeroDivision
   else Except.ok (acc.2 / (acc.1 : ℚ)))

/-- The accumulator of the validation loop (train.py lines 187-199): each
batch contributes a metric value and a count (`len(value)`);
`metric_sum += value.item() * len(value)` and `metric_count += len(value)`. -/
def valAcc (vals : List (ℚ × ℕ)) : ℚ × ℕ :=
  vals.foldl (fun p v => (p.1 + v.1 * (v.2 : ℚ), p.2 + v.2)) (0, 0)

/-- One validation metric computation (train.py lines 187-200) over the
per-batch (value, count) pairs: iterate the batches, then
`metric = metric_sum / metric_count`. -/
def valPhase (vals : List (ℚ × ℕ)) : Except RunErr ℚ :=
  let acc := valAcc vals
  if acc.2 = 0 then Except.error RunErr.zeroDivision
  else Except.ok (acc.1 / (acc.2 : ℚ))

/-! ## Training-loop bookkeeping (train.py lines 155-216)

The loop state tracks `best_metric`, `best_metric_epoch`, the
`metric_values` log, the epochs (1-based) at which the checkpoint was
written, and the epochs (0-based) at which a validation pass ran.  The
mean metric of the i-th validation pass is an input stream `ms`, since its
value comes from the model and data. -/

/-- `val_interval = 2` (train.py line 155). -/
def val_interval : ℕ := 2

/-- The bookkeeping state of the training loop. -/
structure TrainState where
  bestMetric : ℚ
  bestMetricEpoch : ℤ
  metricValues : List ℚ
  saveEpochs : List ℕ
  valEpochs : List ℕ
deriving DecidableEq

/-- The initial state: `best_metric = -1`, `best_metric_epoch = -1`,
`metric_values = list()` (train.py lines 156-159). -/
def initState : TrainState :=
  { bestMetric := -1
    bestMetricEpoch := -1
    metricValues := []
    saveEpochs := []
    valEpochs := [] }

/-- The bookkeeping of one validation pass (train.py lines 201-206), given
the 1-based epoch number `epoch1 = epoch + 1` and the computed mean metric:
append to `metric_values`; if `metric > best_metric` update the best
metric/epoch and save the checkpoint. -/
def valStep (epoch1 : ℕ) (metric : ℚ) (s : TrainState) : TrainState :=
  let s1 : TrainState := { s with metricValues := s.metricValues ++ [metric] }
  if s1.bestMetric < metric then
    { s1 with
      bestMetric := metric
      bestMetricEpoch := (epoch1 : ℤ)
      saveEpochs := s1.saveEpochs ++ [epoch1] }
  else s1

/-- The epoch loop (train.py lines 162-216) restricted to its validation
bookkeeping: epochs `0, ..., n-1` run in order, and epoch `epoch` runs a
validation pass exactly when `(epoch + 1) % val_interval == 0`; the i-th
pass receives mean metric `ms i`. -/
def runEpochs (ms : ℕ → ℚ) : ℕ → TrainState
  | 0 => initState
  | n + 1 =>
    if (n + 1) % val_interval = 0 then
      valStep (n + 1) (ms (runEpochs ms n).metricValues.length)
        { runEpochs ms n with valEpochs := (runEpochs ms n).valEpochs ++ [n] }
    else runEpochs ms n

/-- The running best after `k` validation passes with metric stream `ms`:
`-1` initially, updated by strict improvement (the `if metric > best_metric`
of train.py line 202). -/
def bestOf (ms : ℕ → ℚ) : ℕ → ℚ
  | 0 => -1
  | k + 1 => if bestOf ms k < ms k then ms k else bestOf ms k

/-- The epoch recorded for the running best after `k` validation passes:
pass `j` happens at 1-based epoch `2 * (j + 1)` since `val_interval = 2`. -/
def bestEpochOf (ms : ℕ → ℚ) : ℕ → ℤ
  | 0 => -1
  | k + 1 =>
    if bestOf ms k < ms k then ((2 * (k + 1) : ℕ) : ℤ) else bestEpochOf ms k

/-! ## Basic splitter facts -/

/-- The split boundaries are ordered: `train_val_split N ≤ train_test_split N`. -/
theorem train_val_split_le (N : ℕ) : train_val_split N ≤ train_test_split N := by
  unfold train_val_split train_test_split
  omega

/-- The upper boundary is within the list: `train_test_split N ≤ N`. -/
theorem train_test_split_le (N : ℕ) : train_test_split N ≤ N := by
  unfold train_test_split
  omega

/-- The train slice has length `train_val_split N`. -/
theorem length_dataTrain {α : Type} (l : List α) :
    (dataTrain l).length = train_val_split l.length := by
  have h1 := train_val_split_le l.length
  have h2 := train_test_split_le l.length
  simp only [dataTrain, List.length_take]
  omega

/-- The validation slice has length `train_test_split N - train_val_split N`. -/
theorem length_dataVal {α : Type} (l : List α) :
    (dataVal l).length = train_test_split l.length - train_val_split l.length := by
  have h2 := train_test_split_le l.length
  simp only [dataVal, List.length_drop, List.length_take]
  omega

/-- The test slice has length `N - train_test_split N`. -/
theorem length_dataTest {α : Type} (l : List α) :
    (dataTest l).length = l.length - train_test_split l.length := by
  simp [dataTest]

/-- The three slices concatenate back to the input list. -/
theorem split_append {α : Type} (l : List α) :
    dataTrain l ++ dataVal l ++ dataTest l = l := by
  have h1 := train_val_split_le l.length
  unfold dataTrain dataVal dataTest
  rw [List.append_assoc]
  have htt : l.take (train_val_split l.length)
      = (l.take (train_test_split l.length)).take (train_val_split l.length) := by
    rw [List.take_take, min_eq_left h1]
  rw [htt, ← List.append_assoc, List.take_append_drop, List.take_append_drop]

/-! ## Claim C1 -/

/-- C1 counterexample: at `N = 17` the code boundary
`train_val_split = int(int(17*0.8)*0.9) = 11` differs from the claimed
`floor(0.8 * 0.9 * 17) = 12`. -/
theorem claim1_counterexample : ¬ (train_val_split 17 = specTrainValSplit 17) := by
  decide

/-- C1 (amended): for every record list, the splitter boundaries are
`train_test_split = floor(0.8 * N)` and
`train_val_split = floor(0.9 * floor(0.8 * N))` (a cascaded floor, not
`floor(0.72 * N)`), and the slices are `train = [0, train_val_split)`,
`validation = [train_val_split, train_test_split)`, `test =
[train_test_split, N)` of the prior sort order: the slices are pure
functions of the list, with lengths given by the boundaries and with the
element at each slice position equal to the input element at the
corresponding offset index. -/
theorem claim1_split_boundaries {α : Type} (l : List α) :
    (dataTrain l).length = train_val_split l.length
    ∧ (dataVal l).length = train_test_split l.length - train_val_split l.length
    ∧ (dataTest l).length = l.length - train_test_split l.length
    ∧ (∀ j, j < train_val_split l.length → (dataTrain l)[j]? = l[j]?)
    ∧ (∀ j, j < train_test_split l.length - train_val_split l.length →
        (dataVal l)[j]? = l[train_val_split l.length + j]?)
    ∧ (∀ j, (dataTest l)[j]? = l[train_test_split l.length + j]?) := by
  refine ⟨length_dataTrain l, length_dataVal l, length_dataTest l, ?_, ?_, ?_⟩
  · intro j hj
    exact List.getElem?_take_of_lt hj
  · intro j hj
    show ((l.take (train_test_split l.length)).drop (train_val_split l.length))[j]? = _
    rw [List.getElem?_drop]
    exact List.getElem?_take_of_lt (by omega)
  · intro j
    exact List.getElem?_drop l (train_test_split l.length) j

/-- C1 witness: the amended theorem evaluated on the concrete list
`List.range 20` at train position 0. -/
theorem claim1_witness :
    (dataTrain (List.range 20))[0]? = (List.range 20)[0]? :=
  (claim1_split_boundaries (List.range 20)).2.2.2.1 0 (by decide)

/-! ## Claim C2 -/

/-- C2 counterexample: at `N = 10` the validation slice has one element,
not `floor(0.08 * 10) = 0` elements; and on a record list with repeated
records the train and validation slices are not disjoint. -/
theorem claim2_counterexample :
    (dataVal (List.range 10)).length ≠ 10 * 8 / 100
    ∧ ¬ (dataTrain (List.replicate 10 (0 : ℕ))).Disjoint
        (dataVal (List.replicate 10 (0 : ℕ))) := by
  constructor
  · decide
  · intro h
    exact h (show (0 : ℕ) ∈ dataTrain (List.replicate 10 (0 : ℕ)) by decide)
      (show (0 : ℕ) ∈ dataVal (List.replicate 10 (0 : ℕ)) by decide)

/-- C2 (amended): for every duplicate-free record list of length `N ≥ 10`,
the three slices are pairwise disjoint, their concatenation in order equals
the input list (so sizes sum to `N` and order is preserved), and the sizes
are exactly `train_val_split N`, `train_test_split N - train_val_split N`
and `N - train_test_split N`; these are within 2, 1 and 1 respectively of
`0.72N`, `0.08N` and `0.2N` (stated in integer form) but need not equal
their floors. -/
theorem claim2_split_invariants {α : Type} (l : List α)
    (hnd : l.Nodup) (hN : 10 ≤ l.length) :
    dataTrain l ++ dataVal l ++ dataTest l = l
    ∧ (dataTrain l).length + (dataVal l).length + (dataTest l).length = l.length
    ∧ (dataTrain l).Disjoint (dataVal l)
    ∧ (dataTrain l).Disjoint (dataTest l)
    ∧ (dataVal l).Disjoint (dataTest l)
    ∧ 36 * l.length ≤ 50 * (dataTrain l).length + 81
    ∧ 50 * (dataTrain l).length ≤ 36 * l.length
    ∧ 4 * l.length ≤ 50 * (dataVal l).length + 4
    ∧ 50 * (dataVal l).length ≤ 4 * l.length + 45
    ∧ l.length ≤ 5 * (dataTest l).length
    ∧ 5 * (dataTest l).length ≤ l.length + 4 := by
  have hcat := split_append l
  have hnd2 : (dataTrain l ++ (dataVal l ++ dataTest l)).Nodup := by
    rw [← List.append_assoc, hcat]; exact hnd
  obtain ⟨-, hBC, hAdis⟩ := List.nodup_append.mp hnd2
  obtain ⟨-, -, hBdis⟩ := List.nodup_append.mp hBC
  have hAB := (List.disjoint_append_right.mp hAdis).1
  have hAC := (List.disjoint_append_right.mp hAdis).2
  have htr := length_dataTrain l
  have hva := length_dataVal l
  have hte := length_dataTest l
  have h1 := train_val_split_le l.length
  have h2 := train_test_split_le l.length
  refine ⟨hcat, ?_, hAB, hAC, hBdis, ?_, ?_, ?_, ?_, ?_, ?_⟩ <;>
    simp only [htr, hva, hte, train_val_split, train_test_split] at * <;> omega

/-- C2 witness: the amended theorem evaluated on the concrete duplicate-free
list `List.range 10`. -/
theorem claim2_witness :
    dataTrain (List.range 10) ++ dataVal (List.range 10) ++ dataTest (List.range 10)
      = List.range 10 :=
  (claim2_split_invariants (List.range 10) (by decide) (by decide)).1

/-! ## Claim C3 -/

/-- The indexing fold equals the concatenation of the per-subject
contributions, for any starting accumulator. -/
theorem indexLoop_eq_bind (l : List String) (acc : List SampleRecord) :
    l.foldl
      (fun data s =>
        if isBadSubject s then data
        else data ++ [leftRecord s, rightRecord s])
      acc
      = acc ++ l.flatMap recordsOf := by
  induction l generalizing acc with
  | nil => simp
  | cons x xs ih =>
    cases h : isBadSubject x <;>
      simp [h, ih, recordsOf, List.append_assoc]

/-- The record list has twice as many entries as there are non-excluded
subjects. -/
theorem length_bind_recordsOf (l : List String) :
    (l.flatMap recordsOf).length = 2 * (l.filter (fun s => !isBadSubject s)).length := by
  induction l with
  | nil => rfl
  | cons x xs ih =>
    cases h : isBadSubject x <;>
      simp [recordsOf, h, List.filter, ih] <;> omega

/-- C3: the indexer processes the subject folders in sorted order (the
processed listing is a sorted permutation of the scanned listing); every
excluded subject (name containing one of the six excluded substrings)
contributes zero records, every other subject contributes exactly the two
records with the fixed left/right image and label filenames, and the result
is the in-order concatenation of these contributions, so its length is
twice the number of non-excluded subjects. -/
theorem claim3_indexer (listing : List String) :
    indexRecords listing = (sortedSubjects listing).flatMap recordsOf
    ∧ (∀ s, isBadSubject s = true → recordsOf s = [])
    ∧ (∀ s, isBadSubject s = false → recordsOf s = [leftRecord s, rightRecord s])
    ∧ (sortedSubjects listing).Sorted (fun a b => a ≤ b)
    ∧ List.Perm (sortedSubjects listing) listing
    ∧ (indexRecords listing).length
        = 2 * ((sortedSubjects listing).filter (fun s => !isBadSubject s)).length := by
  have hfold := indexLoop_eq_bind (sortedSubjects listing) []
  have hmain : indexRecords listing = (sortedSubjects listing).flatMap recordsOf := by
    simpa [indexRecords] using hfold
  refine ⟨hmain, ?_, ?_, ?_, ?_, ?_⟩
  · intro s h; simp [recordsOf, h]
  · intro s h; simp [recordsOf, h]
  · exact List.sorted_insertionSort _ listing
  · exact List.perm_insertionSort _ listing
  · rw [hmain, length_bind_recordsOf]

/-- C3 witness: the theorem evaluated on a concrete listing containing one
excluded and one non-excluded subject. -/
theorem claim3_witness :
    indexRecords ["data/g085", "data/g001"]
      = (sortedSubjects ["data/g085", "data/g001"]).flatMap recordsOf
    ∧ recordsOf "data/g085" = [] :=
  ⟨(claim3_indexer ["data/g085", "data/g001"]).1,
   (claim3_indexer ["data/g085", "data/g001"]).2.1 "data/g085" (by decide)⟩

/-! ## Claim C4 -/

/-- The training loop counts one step per batch. -/
theorem trainAcc_steps (losses : List ℚ) :
    ∀ p : ℕ × ℚ, (losses.foldl (fun q l => (q.1 + 1, q.2 + l)) p).1
      = p.1 + losses.length := by
  induction losses with
  | nil => intro p; simp
  | cons x xs ih =>
    intro p
    rw [List.foldl_cons, ih]
    simp
    omega

/-- C4 counterexample: with an empty training split the epoch does not
complete without error, and neither does a validation pass over an empty
validation split: after zero loop iterations, `epoch_loss /= step` and
`metric = metric_sum / metric_count` divide by zero. -/
theorem claim4_counterexample :
    (trainPhase []).2 = Except.error RunErr.zeroDivision
    ∧ valPhase [] = Except.error RunErr.zeroDivision :=
  ⟨rfl, rfl⟩

/-- C4 (amended): an empty split silently yields a zero-iteration loop — the
step count equals the number of batches and no explicit guard exists — but
the phase then raises ZeroDivisionError in the mean computation that
follows the loop, so an epoch over an empty training split and a validation
pass over an empty validation split do not complete without error; with at
least one batch (a nonzero count) each phase completes, returning the mean. -/
theorem claim4_empty_split (losses : List ℚ) (vals : List (ℚ × ℕ)) :
    (trainPhase losses).1 = losses.length
    ∧ (losses = [] → (trainPhase losses).2 = Except.error RunErr.zeroDivision)
    ∧ (losses ≠ [] → ∃ q, (trainPhase losses).2 = Except.ok q)
    ∧ ((valAcc vals).2 = 0 → valPhase vals = Except.error RunErr.zeroDivision)
    ∧ ((valAcc vals).2 ≠ 0 → ∃ q, valPhase vals = Except.ok q) := by
  have hsteps : (trainAcc losses).1 = losses.length := by
    rw [trainAcc, trainAcc_steps losses (0, 0)]
    simp
  refine ⟨hsteps, ?_, ?_, ?_, ?_⟩
  · intro h
    subst h
    rfl
  · intro h
    have hpos : (trainAcc losses).1 ≠ 0 := by
      rw [hsteps]
      simpa using h
    exact ⟨(trainAcc losses).2 / ((trainAcc losses).1 : ℚ), by simp [trainPhase, hpos]⟩
  · intro h
    simp [valPhase, h]
  · intro h
    exact ⟨(valAcc vals).1 / ((valAcc vals).2 : ℚ), by simp [valPhase, h]⟩

/-- C4 witness: a one-batch training phase completes, an empty validation
pass raises the division error. -/
theorem claim4_witness :
    (∃ q, (trainPhase [(1 : ℚ)]).2 = Except.ok q)
    ∧ valPhase [] = Except.error RunErr.zeroDivision :=
  ⟨(claim4_empty_split [(1 : ℚ)] []).2.2.1 (by simp),
   (claim4_empty_split [(1 : ℚ)] []).2.2.2.1 rfl⟩

/-! ## Claim C5 -/

/-- C5: the validation pipeline contains no randomized step, so running it
on the same sample with two different randomness streams yields identical
outputs under every interpretation of the individual transforms. -/
theorem claim5_val_deterministic {S : Type} (I : PipelineSem S) (s : S)
    (r1 r2 : ℕ → ℕ) :
    runPipeline I val_transforms s r1 = runPipeline I val_transforms s r2
    ∧ val_transforms.all (fun t => !isRandom t) = true :=
  ⟨rfl, rfl⟩

/-! ## Training-loop lemmas shared by C6, C7, C9, C10 -/

/-- A validation pass appends exactly its metric to `metric_values`. -/
theorem valStep_metricValues (e : ℕ) (m : ℚ) (s : TrainState) :
    (valStep e m s).metricValues = s.metricValues ++ [m] := by
  by_cases h : s.bestMetric < m <;> simp [valStep, h]

/-- A validation pass does not touch the record of validation epochs. -/
theorem valStep_valEpochs (e : ℕ) (m : ℚ) (s : TrainState) :
    (valStep e m s).valEpochs = s.valEpochs := by
  by_cases h : s.bestMetric < m <;> simp [valStep, h]

/-- The best metric after a validation pass is the strict-improvement update
of train.py line 202. -/
theorem valStep_bestMetric (e : ℕ) (m : ℚ) (s : TrainState) :
    (valStep e m s).bestMetric = if s.bestMetric < m then m else s.bestMetric := by
  by_cases h : s.bestMetric < m <;> simp [valStep, h]

/-- The best-metric epoch after a validation pass. -/
theorem valStep_bestMetricEpoch (e : ℕ) (m : ℚ) (s : TrainState) :
    (valStep e m s).bestMetricEpoch
      = if s.bestMetric < m then (e : ℤ) else s.bestMetricEpoch := by
  by_cases h : s.bestMetric < m <;> simp [valStep, h]

/-- The checkpoint epochs after a validation pass. -/
theorem valStep_saveEpochs (e : ℕ) (m : ℚ) (s : TrainState) :
    (valStep e m s).saveEpochs
      = if s.bestMetric < m then s.saveEpochs ++ [e] else s.saveEpochs := by
  by_cases h : s.bestMetric < m <;> simp [valStep, h]

/-- After `n` epochs the metric log holds the metrics of the `n / 2`
validation passes, in order. -/
theorem runEpochs_metricValues (ms : ℕ → ℚ) (n : ℕ) :
    (runEpochs ms n).metricValues = (List.range (n / 2)).map ms := by
  induction n with
  | zero => rfl
  | succ n ih =>
    rw [runEpochs]
    by_cases h : (n + 1) % val_interval = 0
    · rw [if_pos h, valStep_metricValues]
      have hlen : ({ runEpochs ms n with
          valEpochs := (runEpochs ms n).valEpochs ++ [n] } : TrainState).metricValues
          = (List.range (n / 2)).map ms := ih
      rw [hlen]
      have hk : (n + 1) / 2 = n / 2 + 1 := by
        simp only [val_interval] at h
        omega
      rw [hk, List.range_succ, List.map_append]
      simp
    · rw [if_neg h, ih]
      have hk : (n + 1) / 2 = n / 2 := by
        simp only [val_interval] at h
        omega
      rw [hk]

/-- After `n` epochs, validation has run exactly in the epochs `e < n` with
`(e + 1) % val_interval == 0`, in order. -/
theorem runEpochs_valEpochs (ms : ℕ → ℚ) (n : ℕ) :
    (runEpochs ms n).valEpochs
      = (List.range n).filter (fun e => (e + 1) % val_interval == 0) := by
  induction n with
  | zero => rfl
  | succ n ih =>
    rw [runEpochs, List.range_succ, List.filter_append]
    by_cases h : (n + 1) % val_interval = 0
    · rw [if_pos h, valStep_valEpochs]
      have : ({ runEpochs ms n with
          valEpochs := (runEpochs ms n).valEpochs ++ [n] } : TrainState).valEpochs
          = (runEpochs ms n).valEpochs ++ [n] := rfl
      rw [this, ih]
      simp [h]
    · rw [if_neg h, ih]
      simp [h]

/-- After `n` epochs the best metric and its epoch equal the strict-maximum
bookkeeping over the `n / 2` validation passes. -/
theorem runEpochs_best (ms : ℕ → ℚ) (n : ℕ) :
    (runEpochs ms n).bestMetric = bestOf ms (n / 2)
    ∧ (runEpochs ms n).bestMetricEpoch = bestEpochOf ms (n / 2) := by
  induction n with
  | zero => exact ⟨rfl, rfl⟩
  | succ n ih =>
    obtain ⟨ih1, ih2⟩ := ih
    rw [runEpochs]
    by_cases h : (n + 1) % val_interval = 0
    · have h2 : (n + 1) % 2 = 0 := by simpa [val_interval] using h
      have hk : (n + 1) / 2 = n / 2 + 1 := by omega
      have hlen : (runEpochs ms n).metricValues.length = n / 2 := by
        rw [runEpochs_metricValues]
        simp
      rw [if_pos h, valStep_bestMetric, valStep_bestMetricEpoch, hk, hlen]
      have hproj1 : ({ runEpochs ms n with
          valEpochs := (runEpochs ms n).valEpochs ++ [n] } : TrainState).bestMetric
          = bestOf ms (n / 2) := ih1
      have hproj2 : ({ runEpochs ms n with
          valEpochs := (runEpochs ms n).valEpochs ++ [n] } : TrainState).bestMetricEpoch
          = bestEpochOf ms (n / 2) := ih2
      rw [hproj1, hproj2, bestOf, bestEpochOf]
      constructor
      · rfl
      · by_cases hlt : bestOf ms (n / 2) < ms (n / 2)
        · rw [if_pos hlt, if_pos hlt]
          have : n + 1 = 2 * (n / 2 + 1) := by omega
          rw [this]
        · rw [if_neg hlt, if_neg hlt]
    · have h2 : ¬ (n + 1) % 2 = 0 := by simpa [val_interval] using h
      have hk : (n + 1) / 2 = n / 2 := by omega
      rw [if_neg h, hk]
      exact ⟨ih1, ih2⟩

/-- The running best never decreases from one validation pass to the next. -/
theorem bestOf_mono (ms : ℕ → ℚ) (k : ℕ) : bestOf ms k ≤ bestOf ms (k + 1) := by
  rw [bestOf]
  split
  · exact le_of_lt (by assumption)
  · exact le_refl _

/-- With nonnegative metrics and at least one pass, the running best is the
maximum of the metrics so far, and its recorded epoch is the 1-based epoch
`2 * (j + 1)` of the earliest pass `j` attaining that maximum. -/
theorem bestOf_spec (ms : ℕ → ℚ) (k : ℕ) (hk : 1 ≤ k)
    (hnn : ∀ i < k, 0 ≤ ms i) :
    (∀ i < k, ms i ≤ bestOf ms k)
    ∧ ∃ j < k, ms j = bestOf ms k
        ∧ bestEpochOf ms k = ((2 * (j + 1) : ℕ) : ℤ)
        ∧ ∀ i < j, ms i < bestOf ms k := by
  induction k with
  | zero => exact absurd hk (by norm_num)
  | succ k ih =>
    rcases Nat.eq_zero_or_pos k with hk0 | hkpos
    · subst hk0
      have h0 : 0 ≤ ms 0 := hnn 0 (by norm_num)
      have hlt : bestOf ms 0 < ms 0 := by
        rw [bestOf]
        exact lt_of_lt_of_le (by norm_num) h0
      have hb : bestOf ms 1 = ms 0 := by rw [bestOf, if_pos hlt]
      have hep : bestEpochOf ms 1 = ((2 * (0 + 1) : ℕ) : ℤ) := by
        rw [bestEpochOf, if_pos hlt]
      constructor
      · intro i hi
        have : i = 0 := by omega
        subst this
        rw [hb]
      · exact ⟨0, by norm_num, hb.symm, hep, fun i hi => absurd hi (by omega)⟩
    · have hnn' : ∀ i < k, 0 ≤ ms i := fun i hi => hnn i (by omega)
      obtain ⟨ub, j, hj, hjeq, hjep, hjlt⟩ := ih hkpos hnn'
      by_cases hlt : bestOf ms k < ms k
      · have hb : bestOf ms (k + 1) = ms k := by rw [bestOf, if_pos hlt]
        have hep : bestEpochOf ms (k + 1) = ((2 * (k + 1) : ℕ) : ℤ) := by
          rw [bestEpochOf, if_pos hlt]
        constructor
        · intro i hi
          rw [hb]
          rcases Nat.lt_succ_iff_lt_or_eq.mp hi with hik | rfl
          · exact le_trans (ub i hik) (le_of_lt hlt)
          · exact le_refl _
        · refine ⟨k, by omega, hb.symm, hep, ?_⟩
          intro i hik
          rw [hb]
          exact lt_of_le_of_lt (ub i hik) hlt
      · have hb : bestOf ms (k + 1) = bestOf ms k := by rw [bestOf, if_neg hlt]
        have hep : bestEpochOf ms (k + 1) = bestEpochOf ms k := by
          rw [bestEpochOf, if_neg hlt]
        constructor
        · intro i hi
          rw [hb]
          rcases Nat.lt_succ_iff_lt_or_eq.mp hi with hik | rfl
          · exact ub i hik
          · exact le_of_not_lt hlt
        · refine ⟨j, by omega, ?_, ?_, ?_⟩
          · rw [hb]; exact hjeq
          · rw [hep]; exact hjep
          · intro i hij
            rw [hb]
            exact hjlt i hij

/-! ## Claim C6 -/

/-- C6: validation runs in epoch `e` exactly when `(e + 1) % 2 == 0` with
`val_interval = 2`; consequently after exactly 2 epochs exactly one
validation pass has executed (in epoch index 1) and exactly one mean-metric
log entry has been produced. -/
theorem claim6_val_schedule (ms : ℕ → ℚ) (n : ℕ) :
    (runEpochs ms n).valEpochs
      = (List.range n).filter (fun e => (e + 1) % val_interval == 0)
    ∧ (∀ e, e ∈ (runEpochs ms n).valEpochs ↔ e < n ∧ (e + 1) % val_interval = 0)
    ∧ (runEpochs ms 2).valEpochs = [1]
    ∧ (runEpochs ms 2).metricValues = [ms 0] := by
  refine ⟨runEpochs_valEpochs ms n, ?_, ?_, ?_⟩
  · intro e
    rw [runEpochs_valEpochs]
    simp [List.mem_filter]
  · rw [runEpochs_valEpochs]
    rfl
  · rw [runEpochs_metricValues]
    rfl

/-- C6 witness: the schedule evaluated after two epochs on a constant
metric stream. -/
theorem claim6_witness : (runEpochs (fun _ => (1 : ℚ)) 2).valEpochs = [1] :=
  (claim6_val_schedule (fun _ => (1 : ℚ)) 2).2.2.1

/-! ## Claim C7 -/

/-- C7: in a validation pass, if the mean metric strictly exceeds the
recorded best then the checkpoint is written (its epoch is appended to the
save log) and the best metric and best epoch are updated; otherwise no
checkpoint write occurs and both values are unchanged.  In both cases the
metric is appended to the metric log. -/
theorem claim7_checkpoint (s : TrainState) (e1 : ℕ) (m : ℚ) :
    (s.bestMetric < m →
      (valStep e1 m s).bestMetric = m
      ∧ (valStep e1 m s).bestMetricEpoch = (e1 : ℤ)
      ∧ (valStep e1 m s).saveEpochs = s.saveEpochs ++ [e1]
      ∧ (valStep e1 m s).metricValues = s.metricValues ++ [m])
    ∧ (¬ s.bestMetric < m →
      (valStep e1 m s).bestMetric = s.bestMetric
      ∧ (valStep e1 m s).bestMetricEpoch = s.bestMetricEpoch
      ∧ (valStep e1 m s).saveEpochs = s.saveEpochs
      ∧ (valStep e1 m s).metricValues = s.metricValues ++ [m]) := by
  constructor <;> intro h
  · rw [valStep_bestMetric, valStep_bestMetricEpoch, valStep_saveEpochs,
      valStep_metricValues]
    rw [if_pos h, if_pos h, if_pos h]
    exact ⟨rfl, rfl, rfl, rfl⟩
  · rw [valStep_bestMetric, valStep_bestMetricEpoch, valStep_saveEpochs,
      valStep_metricValues]
    rw [if_neg h, if_neg h, if_neg h]
    exact ⟨rfl, rfl, rfl, rfl⟩

/-- C7 witness: an improving pass over the initial state records the new
best metric. -/
theorem claim7_witness : (valStep 2 0 initState).bestMetric = 0 :=
  ((claim7_checkpoint initState 2 0).1 (by norm_num [initState])).1

/-! ## Claim C8 -/

/-- C8 counterexample: the training pipeline the code builds does not apply
its steps in the order the claim lists: the code applies randomized zoom
before randomized Gaussian noise and converts to tensors between the flip
and the affine step, so the step sequences differ. -/
theorem claim8_counterexample :
    train_transforms ≠ specTrainPipeline
    ∧ train_transforms.map stepTag ≠ specTrainPipeline.map stepTag := by
  have h2 : train_transforms.map stepTag ≠ specTrainPipeline.map stepTag := by
    decide
  exact ⟨fun h => h2 (by rw [h]), h2⟩

/-- C8 (amended): the train pipeline applies its steps to every sample in
exactly this order: load volumes, reorder to channel-first, insert a channel
dimension, resize, intensity rescale, randomized intensity scale (p = 0.4),
randomized zoom (p = 0.8), randomized Gaussian noise (p = 0.9), randomized
flip (p = 0.3), conversion to tensors, randomized affine (p = 0.9); each
randomized step consumes its own independent per-sample draw, in that
order. -/
theorem claim8_train_pipeline_order {S : Type} (I : PipelineSem S) (s : S)
    (r : ℕ → ℕ) :
    runPipeline I train_transforms s r
      = I.rnd (XStep.randAffine (9 / 10))
          (I.det XStep.toTensor
            (I.rnd (XStep.randFlip (3 / 10))
              (I.rnd (XStep.randGaussianNoise (9 / 10))
                (I.rnd (XStep.randZoom (4 / 5))
                  (I.rnd (XStep.randScaleIntensity (2 / 5))
                    (I.det XStep.scaleIntensity
                      (I.det XStep.resized
                        (I.det XStep.addChannel
                          (I.det XStep.asChannelFirst
                            (I.det XStep.loadNifti s)))))
                    (r 0))
                  (r 1))
                (r 2))
              (r 3)))
          (r 4)
    ∧ train_transforms.filter isRandom
        = [XStep.randScaleIntensity (2 / 5), XStep.randZoom (4 / 5),
           XStep.randGaussianNoise (9 / 10), XStep.randFlip (3 / 10),
           XStep.randAffine (9 / 10)] :=
  ⟨rfl, rfl⟩

/-! ## Claim C9 -/

/-- The metric accumulator stays nonnegative when every per-batch metric
value is nonnegative. -/
theorem valAcc_fold_nonneg (vals : List (ℚ × ℕ))
    (hnn : ∀ p ∈ vals, 0 ≤ p.1) :
    ∀ (a : ℚ) (b : ℕ), 0 ≤ a →
      0 ≤ (vals.foldl (fun p v => (p.1 + v.1 * (v.2 : ℚ), p.2 + v.2)) (a, b)).1 := by
  induction vals with
  | nil => intro a b ha; simpa using ha
  | cons v vs ih =>
    intro a b ha
    rw [List.foldl_cons]
    refine ih (fun p hp => hnn p (List.mem_cons_of_mem v hp)) _ _ ?_
    have hv : 0 ≤ v.1 := hnn v (List.mem_cons_self v vs)
    have : 0 ≤ v.1 * (v.2 : ℚ) := mul_nonneg hv (by positivity)
    linarith

/-- C9: the first validation pass that executes (epoch 2) always writes the
checkpoint: the best metric is initialized to -1, and the pass's mean metric
is a count-weighted mean of nonnegative per-batch Dice values, hence
nonnegative, so the strict improvement test necessarily fires; afterwards
the best metric is that mean and the best epoch is 2. -/
theorem claim9_first_val_saves (vals : List (ℚ × ℕ)) (m : ℚ) (ms : ℕ → ℚ)
    (hok : valPhase vals = Except.ok m) (hnn : ∀ p ∈ vals, 0 ≤ p.1)
    (hms : ms 0 = m) :
    0 ≤ m
    ∧ (runEpochs ms 2).saveEpochs = [2]
    ∧ (runEpochs ms 2).bestMetric = m
    ∧ (runEpochs ms 2).bestMetricEpoch = 2 := by
  have hm : 0 ≤ m := by
    unfold valPhase at hok
    by_cases h : (valAcc vals).2 = 0
    · rw [if_pos h] at hok
      exact absurd hok (by simp)
    · rw [if_neg h] at hok
      have hmeq : (valAcc vals).1 / ((valAcc vals).2 : ℚ) = m := by
        simpa using hok
      rw [← hmeq]
      exact div_nonneg (valAcc_fold_nonneg vals hnn 0 0 le_rfl) (by positivity)
  have hrun : runEpochs ms 2
      = valStep 2 (ms 0) { initState with valEpochs := [1] } := by
    show runEpochs ms (1 + 1) = _
    rw [runEpochs]
    rw [if_pos (by decide)]
    rw [runEpochs]
    rw [if_neg (by decide)]
    rfl
  have hlt : ({ initState with valEpochs := [1] } : TrainState).bestMetric < ms 0 := by
    show (-1 : ℚ) < ms 0
    rw [hms]
    linarith
  refine ⟨hm, ?_, ?_, ?_⟩
  · rw [hrun, valStep_saveEpochs, if_pos hlt]
    rfl
  · rw [hrun, valStep_bestMetric, if_pos hlt, hms]
  · rw [hrun, valStep_bestMetricEpoch, if_pos hlt]
    rfl

/-- C9 witness: a single validation batch with Dice value 0 and count 1
makes the first pass save the checkpoint at epoch 2. -/
theorem claim9_witness : (runEpochs (fun _ => (0 : ℚ)) 2).saveEpochs = [2] :=
  (claim9_first_val_saves [((0 : ℚ), 1)] 0 (fun _ => 0)
    (by norm_num [valPhase, valAcc]) (by norm_num) rfl).2.1

/-! ## Claim C10 -/

/-- C10: after any validation pass, the recorded best metric is the maximum
of all mean metrics computed so far (assuming the Dice means are
nonnegative, as they are for the Dice metric), the recorded best epoch is
the 1-based epoch `2 * (j + 1)` of the earliest pass `j` attaining that
maximum, and the best metric never decreases from epoch to epoch. -/
theorem claim10_best_metric_invariant (ms : ℕ → ℚ) (n : ℕ)
    (hnn : ∀ i < n / 2, 0 ≤ ms i) (hk : 1 ≤ n / 2) :
    (∀ m ∈ (runEpochs ms n).metricValues, m ≤ (runEpochs ms n).bestMetric)
    ∧ (runEpochs ms n).bestMetric ∈ (runEpochs ms n).metricValues
    ∧ (∃ j < n / 2,
        ms j = (runEpochs ms n).bestMetric
        ∧ (runEpochs ms n).bestMetricEpoch = ((2 * (j + 1) : ℕ) : ℤ)
        ∧ ∀ i < j, ms i < (runEpochs ms n).bestMetric)
    ∧ (∀ (ms2 : ℕ → ℚ) (n2 : ℕ),
        (runEpochs ms2 n2).bestMetric ≤ (runEpochs ms2 (n2 + 1)).bestMetric) := by
  obtain ⟨hb, he⟩ := runEpochs_best ms n
  obtain ⟨ub, j, hj, hjeq, hjep, hjlt⟩ := bestOf_spec ms (n / 2) hk hnn
  refine ⟨?_, ?_, ⟨j, hj, ?_, ?_, ?_⟩, ?_⟩
  · intro m hm
    rw [runEpochs_metricValues] at hm
    obtain ⟨i, hi, rfl⟩ := List.mem_map.mp hm
    rw [hb]
    exact ub i (List.mem_range.mp hi)
  · rw [hb, runEpochs_metricValues]
    exact List.mem_map.mpr ⟨j, List.mem_range.mpr hj, hjeq⟩
  · rw [hb]
    exact hjeq
  · rw [he]
    exact hjep
  · intro i hi
    rw [hb]
    exact hjlt i hi
  · intro ms2 n2
    obtain ⟨hb1, -⟩ := runEpochs_best ms2 n2
    obtain ⟨hb2, -⟩ := runEpochs_best ms2 (n2 + 1)
    rw [hb1, hb2]
    have hsplit : (n2 + 1) / 2 = n2 / 2 ∨ (n2 + 1) / 2 = n2 / 2 + 1 := by omega
    rcases hsplit with hca | hca
    · rw [hca]
    · rw [hca]
      exact bestOf_mono ms2 (n2 / 2)

/-- C10 witness: the invariant evaluated after two epochs on the constant
metric stream 1. -/
theorem claim10_witness :
    (runEpochs (fun _ => (1 : ℚ)) 2).bestMetric
      ∈ (runEpochs (fun _ => (1 : ℚ)) 2).metricValues :=
  (claim10_best_metric_invariant (fun _ => 1) 2
    (fun i _ => by norm_num) (by norm_num)).2.1

end HighResSeg
